import Mathlib

/-!
Shallow embedding of `ConFPS.cpp` (console first-person maze renderer).

Floating-point quantities of the source are modelled as exact rationals
(and, for the full render pipeline, as real numbers); `(int)` casts are
modelled as truncation toward zero, matching C++ semantics.
-/

set_option maxRecDepth 8000

attribute [local semireducible] Rat.add Rat.mul Rat.sub Rat.inv

namespace ConFPS

/-- Width of the console screen in characters (`nScreenWidth = 120`). -/
def nScreenWidth : ℕ := 120

/-- Height of the console screen in characters (`nScreenHeight = 40`). -/
def nScreenHeight : ℕ := 40

/-- Width of the map in grid units (`nMapWidth = 16`). -/
def nMapWidth : ℤ := 16

/-- Height of the map in grid units (`nMapHeight = 16`). -/
def nMapHeight : ℤ := 16

/-- Maximum depth for ray casting (`fDepth = 16.0f`). -/
def fDepth : ℚ := 16

/-- Player movement speed (`fSpeed = 5.0f`). -/
def fSpeed : ℚ := 5

/-- The literal `3.14159f` used by the source for π. -/
def PI : ℚ := 314159 / 100000

/-- The map layout string from `ConFPS.cpp`: 16 rows of 16 characters,
`#` a wall and `.` empty space. -/
def gameMap : List Char :=
  ("################" ++
   "#..............#" ++
   "####...##..##..#" ++
   "#..............#" ++
   "#..............#" ++
   "#.........#....#" ++
   "#..............#" ++
   "#....###....#..#" ++
   "#..............#" ++
   "####...........#" ++
   "#..............#" ++
   "#..............#" ++
   "#.......########" ++
   "#..............#" ++
   "#..............#" ++
   "################").toList

/-- C++ `(int)` cast on a float value: truncation toward zero. -/
def itrunc (q : ℚ) : ℤ := if 0 ≤ q then ⌊q⌋ else ⌈q⌉

/-- Reading `map[i]`: in range gives the character, out of range is
undefined behaviour in the C++ source, modelled as `none`. -/
def mapLookup (i : ℤ) : Option Char :=
  if 0 ≤ i ∧ i < (nMapWidth * nMapHeight : ℤ) then gameMap[i.toNat]? else none

theorem gameMap_length : gameMap.length = 256 := by decide

/-- The `moveStep` local of `MovePlayer`: `forward ? fSpeed : -fSpeed`. -/
def moveStepOf (forward : Bool) : ℚ := if forward then fSpeed else -fSpeed

/-- Tentative destination `x` after `x += sinf(angle) * moveStep * elapsedTime`.
The source uses `angle` only through `sinf`/`cosf`, so the embedding takes
those two values as parameters. -/
def destX (x sinA elapsedTime : ℚ) (forward : Bool) : ℚ :=
  x + sinA * moveStepOf forward * elapsedTime

/-- Tentative destination `y` after `y += cosf(angle) * moveStep * elapsedTime`. -/
def destY (y cosA elapsedTime : ℚ) (forward : Bool) : ℚ :=
  y + cosA * moveStepOf forward * elapsedTime

/-- The unchecked map index `(int)y * nMapWidth + (int)x` computed by the
wall test of `MovePlayer` at the tentative destination. -/
def destIndex (x y sinA cosA elapsedTime : ℚ) (forward : Bool) : ℤ :=
  itrunc (destY y cosA elapsedTime forward) * nMapWidth +
    itrunc (destX x sinA elapsedTime forward)

/-- `MovePlayer` from `ConFPS.cpp`: apply the displacement, then undo it
exactly when the destination cell is a wall.  Returns `none` when the wall
test reads `map` out of range (undefined behaviour in the source). -/
def MovePlayer (x y sinA cosA elapsedTime : ℚ) (forward : Bool) : Option (ℚ × ℚ) :=
  let x1 := destX x sinA elapsedTime forward
  let y1 := destY y cosA elapsedTime forward
  match mapLookup (destIndex x y sinA cosA elapsedTime forward) with
  | none => none
  | some c =>
    if c = '#' then
      some (x1 - sinA * moveStepOf forward * elapsedTime,
            y1 - cosA * moveStepOf forward * elapsedTime)
    else
      some (x1, y1)

/-- Accumulated ray distance after `n` iterations of `fDistanceToWall += 0.1f`. -/
def distQ (n : ℕ) : ℚ := n / 10

/-- `nTestX = (int)(fPlayerX + fEyeX * fDistanceToWall)` at step `n`. -/
def sampleX (px eX : ℚ) (n : ℕ) : ℤ := itrunc (px + eX * distQ n)

/-- `nTestY = (int)(fPlayerY + fEyeY * fDistanceToWall)` at step `n`. -/
def sampleY (py eY : ℚ) (n : ℕ) : ℤ := itrunc (py + eY * distQ n)

/-- The out-of-bounds test of the ray march:
`nTestX < 0 || nTestX >= nMapWidth || nTestY < 0 || nTestY >= nMapHeight`. -/
def outOfBoundsSample (px py eX eY : ℚ) (n : ℕ) : Prop :=
  sampleX px eX n < 0 ∨ nMapWidth ≤ sampleX px eX n ∨
    sampleY py eY n < 0 ∨ nMapHeight ≤ sampleY py eY n

instance (px py eX eY : ℚ) (n : ℕ) : Decidable (outOfBoundsSample px py eX eY n) := by
  unfold outOfBoundsSample; infer_instance

/-- The wall test of the ray march: `map[nTestY * nMapWidth + nTestX] == '#'`. -/
def wallSample (px py eX eY : ℚ) (n : ℕ) : Prop :=
  mapLookup (sampleY py eY n * nMapWidth + sampleX px eX n) = some '#'

instance (px py eX eY : ℚ) (n : ℕ) : Decidable (wallSample px py eX eY n) := by
  unfold wallSample; infer_instance

/-- How one execution of the ray-march `while` loop exits, with the step
counter at which it does (`distQ n` is the accumulated distance there). -/
inductive MarchResult : Type
  | hitWall (n : ℕ)
  | outOfBounds (n : ℕ)
  | maxDepth (n : ℕ)
deriving DecidableEq, Repr

/-- One fuel-indexed unfolding of the march loop
`while (!bHitWall && fDistanceToWall < fDepth)`.  The counter `n` holds the
number of `+= 0.1f` increments executed so far; `none` means the fuel ran
out while the loop guard still held. -/
def marchAux (px py eX eY : ℚ) : ℕ → ℕ → Option MarchResult
  | 0, n => if distQ n < fDepth then none else some (.maxDepth n)
  | fuel + 1, n =>
    if distQ n < fDepth then
      if outOfBoundsSample px py eX eY (n + 1) then some (.outOfBounds (n + 1))
      else if wallSample px py eX eY (n + 1) then some (.hitWall (n + 1))
      else marchAux px py eX eY fuel (n + 1)
    else some (.maxDepth n)

/-- The ray march of `RenderScene` for one column, with eye vector
`(eX, eY)`: 160 units of fuel suffice because the guard bounds the distance
by `fDepth = 16` in steps of `0.1`. -/
def rayMarch (px py eX eY : ℚ) : Option MarchResult :=
  marchAux px py eX eY 160 0

/-- The value of `fDistanceToWall` when the loop exits: the accumulated
distance on a wall hit or depth exit, pinned to `fDepth` when the sample
left the map bounds. -/
def reportedDist : MarchResult → ℚ
  | .hitWall n => distQ n
  | .outOfBounds _ => fDepth
  | .maxDepth n => distQ n

/-- Step counter at loop exit. -/
def stepsOf : MarchResult → ℕ
  | .hitWall n => n
  | .outOfBounds n => n
  | .maxDepth n => n

/-- `int nCeiling = (nScreenHeight / 2.0f) - nScreenHeight / fDistanceToWall`:
the float expression truncated to `int`. -/
def nCeiling (d : ℚ) : ℤ :=
  itrunc ((nScreenHeight : ℚ) / 2 - (nScreenHeight : ℚ) / d)

/-- `int nFloor = nScreenHeight - nCeiling`. -/
def nFloor (d : ℚ) : ℤ := (nScreenHeight : ℤ) - nCeiling d

/-- The wall-shade selection of `RenderScene` (the `nShade` if-chain on
`fDistanceToWall`, before the boundary override), as a glyph code. -/
def nShadeChain (d : ℚ) : ℕ :=
  if d ≤ fDepth / 4 then 0x2588
  else if d < fDepth / 3 then 0x2593
  else if d < fDepth / 2 then 0x2592
  else if d < fDepth then 0x2591
  else 0x20

/-- Wall shade after the boundary override `if (bBoundary) nShade = ' '`. -/
def wallShade (d : ℚ) (bBoundary : Bool) : ℕ :=
  if bBoundary then 0x20 else nShadeChain d

/-- Floor shading for screen row `y`:
`b = 1 - (y - nScreenHeight/2) / (nScreenHeight/2)` bucketed into five glyphs. -/
def floorGlyph (y : ℕ) : ℕ :=
  let b : ℚ := 1 - ((y : ℚ) - (nScreenHeight : ℚ) / 2) / ((nScreenHeight : ℚ) / 2)
  if b < 1 / 4 then 0x23
  else if b < 1 / 2 then 0x78
  else if b < 3 / 4 then 0x2E
  else if b < 9 / 10 then 0x7E
  else 0x20

/-- The character written to screen row `y` of a column whose ray reported
distance `d` and boundary flag `bBoundary`: the ceiling / wall / floor
branches of the per-column fill loop. -/
def cellChar (d : ℚ) (bBoundary : Bool) (y : ℕ) : ℕ :=
  if (y : ℤ) < nCeiling d then 0x20
  else if nCeiling d ≤ (y : ℤ) ∧ (y : ℤ) < nFloor d then wallShade d bBoundary
  else floorGlyph y

/-- Number of rows of the column taking the ceiling branch `y < nCeiling`. -/
def ceilRows (d : ℚ) : ℕ :=
  ((Finset.range nScreenHeight).filter fun y : ℕ => (y : ℤ) < nCeiling d).card

/-- Number of rows taking the wall branch `y >= nCeiling && y < nFloor`. -/
def wallRows (d : ℚ) : ℕ :=
  ((Finset.range nScreenHeight).filter fun y : ℕ =>
    ¬((y : ℤ) < nCeiling d) ∧ (nCeiling d ≤ (y : ℤ) ∧ (y : ℤ) < nFloor d)).card

/-- Number of rows taking the final floor branch. -/
def floorRows (d : ℚ) : ℕ :=
  ((Finset.range nScreenHeight).filter fun y : ℕ =>
    ¬((y : ℤ) < nCeiling d) ∧ ¬(nCeiling d ≤ (y : ℤ) ∧ (y : ℤ) < nFloor d)).card

/-- The sequence of cells written by the fill loops, in loop order:
`for x in [0, nScreenWidth) { for y in [0, nScreenHeight) { write (x, y) } }`. -/
def renderTargets : List (ℕ × ℕ) :=
  (List.range nScreenWidth).flatMap fun x =>
    (List.range nScreenHeight).map fun y => (x, y)

/-- One screen-buffer store `screen[...] = f t`. -/
def writeCell {α : Type} (f : ℕ × ℕ → α) (s : ℕ × ℕ → α) (t : ℕ × ℕ) : ℕ × ℕ → α :=
  fun p => if p = t then f t else s p

/-- Execute a sequence of stores left to right on an initial buffer. -/
def applyWrites {α : Type} (f : ℕ × ℕ → α) (ws : List (ℕ × ℕ)) (s0 : ℕ × ℕ → α) :
    ℕ × ℕ → α :=
  ws.foldl (writeCell f) s0

/-- The screen-buffer fill of `RenderScene`, parametrised by the per-column
ray result (`dist x`, `bnd x`) and the buffer contents `s0` left from the
previous frame. -/
def renderFill (dist : ℕ → ℚ) (bnd : ℕ → Bool) (s0 : ℕ × ℕ → ℕ) : ℕ × ℕ → ℕ :=
  applyWrites (fun p => cellChar (dist p.1) (bnd p.1) p.2) renderTargets s0

/-- C `fmod`: `x - trunc(x / m) * m`, keeping the sign of `x`. -/
def fmodQ (x m : ℚ) : ℚ := x - itrunc (x / m) * m

/-- The minimap direction-glyph selection of `main`:
`fmod(fPlayerA, 2 * 3.14159f)` tested against the four sector ranges. -/
def playerDirection (fPlayerA : ℚ) : Char :=
  let angle := fmodQ fPlayerA (2 * PI)
  if -PI / 4 ≤ angle ∧ angle < PI / 4 then 'v'
  else if PI / 4 ≤ angle ∧ angle < 3 * PI / 4 then '>'
  else if 3 * PI / 4 ≤ angle ∨ angle < -(3 * PI) / 4 then '^'
  else '<'

/-- Field of view in radians (`fFOV = 3.14159f / 4.0f`). -/
def fFOV : ℚ := PI / 4

/-- Tolerance for wall boundary detection (`fBoundaryTolerance = 0.01f`). -/
def fBoundaryTolerance : ℚ := 1 / 100

/-- C++ `(int)` cast on a real value: truncation toward zero. -/
noncomputable def itruncR (r : ℝ) : ℤ := if 0 ≤ r then ⌊r⌋ else ⌈r⌉

/-- The four corner records pushed for the boundary check on a wall hit at
cell `(tX, tY)`: distance and dot product with the ray, in the source's
`tx`-outer `ty`-inner push order. -/
noncomputable def boundaryPairs (px py eX eY : ℝ) (tX tY : ℤ) : List (ℝ × ℝ) :=
  (List.range 2).flatMap fun tx =>
    (List.range 2).map fun ty =>
      let vy : ℝ := (tY : ℝ) + (ty : ℝ) - py
      let vx : ℝ := (tX : ℝ) + (tx : ℝ) - px
      let d : ℝ := Real.sqrt (vx * vx + vy * vy)
      (d, eX * vx / d + eY * vy / d)

open Classical in
/-- `CheckWallBoundary` from `ConFPS.cpp`: true when the angular deviation
to either of the two nearest corners is below the tolerance. -/
noncomputable def CheckWallBoundary (p : List (ℝ × ℝ)) : Bool :=
  if Real.arccos (p.getD 0 (0, 0)).2 < (fBoundaryTolerance : ℝ) then true
  else if Real.arccos (p.getD 1 (0, 0)).2 < (fBoundaryTolerance : ℝ) then true
  else false

open Classical in
/-- The full ray march of `RenderScene` over the reals, fuel-indexed,
returning `fDistanceToWall` and `bBoundary` at loop exit. -/
noncomputable def marchR (px py eX eY : ℝ) : ℕ → ℝ → ℝ × Bool
  | 0, d => (d, false)
  | fuel + 1, d =>
    if d < (fDepth : ℝ) then
      let d1 := d + 1 / 10
      let tX := itruncR (px + eX * d1)
      let tY := itruncR (py + eY * d1)
      if tX < 0 ∨ nMapWidth ≤ tX ∨ tY < 0 ∨ nMapHeight ≤ tY then ((fDepth : ℝ), false)
      else if mapLookup (tY * nMapWidth + tX) = some '#' then
        (d1, CheckWallBoundary ((boundaryPairs px py eX eY tX tY).mergeSort
          fun l r => decide (l.1 < r.1)))
      else marchR px py eX eY fuel d1
    else (d, false)

/-- Ceiling position over the reals. -/
noncomputable def nCeilingR (d : ℝ) : ℤ :=
  itruncR ((nScreenHeight : ℝ) / 2 - (nScreenHeight : ℝ) / d)

/-- Floor position over the reals. -/
noncomputable def nFloorR (d : ℝ) : ℤ := (nScreenHeight : ℤ) - nCeilingR d

open Classical in
/-- Wall-shade if-chain over the reals. -/
noncomputable def nShadeChainR (d : ℝ) : ℕ :=
  if d ≤ (fDepth : ℝ) / 4 then 0x2588
  else if d < (fDepth : ℝ) / 3 then 0x2593
  else if d < (fDepth : ℝ) / 2 then 0x2592
  else if d < (fDepth : ℝ) then 0x2591
  else 0x20

/-- Wall shade with boundary override, over the reals. -/
noncomputable def wallShadeR (d : ℝ) (bBoundary : Bool) : ℕ :=
  if bBoundary then 0x20 else nShadeChainR d

open Classical in
/-- Per-column cell character over the reals. -/
noncomputable def cellCharR (d : ℝ) (bBoundary : Bool) (y : ℕ) : ℕ :=
  if (y : ℤ) < nCeilingR d then 0x20
  else if nCeilingR d ≤ (y : ℤ) ∧ (y : ℤ) < nFloorR d then wallShadeR d bBoundary
  else floorGlyph y

/-- Ray angle and march for screen column `x`:
`fRayAngle = (fPlayerA - fFOV/2) + (x / nScreenWidth) * fFOV`, eye vector
`(sinf(fRayAngle), cosf(fRayAngle))`. -/
noncomputable def columnRay (px py pa : ℝ) (x : ℕ) : ℝ × Bool :=
  let fRayAngle := (pa - (fFOV : ℝ) / 2) + ((x : ℝ) / (nScreenWidth : ℝ)) * (fFOV : ℝ)
  marchR px py (Real.sin fRayAngle) (Real.cos fRayAngle) 160 0

set_option linter.unusedVariables false in
/-- `RenderScene(screen, fElapsedTime)` from `ConFPS.cpp`, with the player
pose passed explicitly in place of the globals and the screen buffer as a
function: every cell of the 120x40 grid is written from its column's ray
result. -/
noncomputable def RenderScene (px py pa : ℝ) (fElapsedTime : ℝ) (s0 : ℕ × ℕ → ℕ) :
    ℕ × ℕ → ℕ :=
  applyWrites
    (fun p => cellCharR (columnRay px py pa p.1).1 (columnRay px py pa p.1).2 p.2)
    renderTargets s0

theorem marchAux_zero (px py eX eY : ℚ) (n : ℕ) :
    marchAux px py eX eY 0 n =
      if distQ n < fDepth then none else some (.maxDepth n) := rfl

theorem marchAux_succ (px py eX eY : ℚ) (fuel n : ℕ) :
    marchAux px py eX eY (fuel + 1) n =
      if distQ n < fDepth then
        if outOfBoundsSample px py eX eY (n + 1) then some (.outOfBounds (n + 1))
        else if wallSample px py eX eY (n + 1) then some (.hitWall (n + 1))
        else marchAux px py eX eY fuel (n + 1)
      else some (.maxDepth n) := rfl

theorem distQ_lt_depth_iff (n : ℕ) : distQ n < fDepth ↔ n < 160 := by
  unfold distQ fDepth
  rw [div_lt_iff₀ (by norm_num)]
  norm_cast

theorem marchAux_hitWall_spec (px py eX eY : ℚ) :
    ∀ fuel n0 n, marchAux px py eX eY fuel n0 = some (.hitWall n) →
      n0 < n ∧ n ≤ 160 ∧ wallSample px py eX eY n ∧
        ¬outOfBoundsSample px py eX eY n ∧
        ∀ k, n0 < k → k < n →
          ¬outOfBoundsSample px py eX eY k ∧ ¬wallSample px py eX eY k := by
  intro fuel
  induction fuel with
  | zero =>
    intro n0 n h
    rw [marchAux_zero] at h
    split at h <;> simp_all
  | succ fuel ih =>
    intro n0 n h
    rw [marchAux_succ] at h
    by_cases hg : distQ n0 < fDepth
    · rw [if_pos hg] at h
      by_cases hoob : outOfBoundsSample px py eX eY (n0 + 1)
      · rw [if_pos hoob] at h
        simp at h
      · rw [if_neg hoob] at h
        by_cases hw : wallSample px py eX eY (n0 + 1)
        · rw [if_pos hw] at h
          have hn : n = n0 + 1 := by simpa using h.symm
          subst hn
          have hb : n0 < 160 := (distQ_lt_depth_iff n0).1 hg
          exact ⟨Nat.lt_succ_self _, by omega, hw, hoob, fun k hk1 hk2 => by omega⟩
        · rw [if_neg hw] at h
          obtain ⟨h1, h2, h3, h4, h5⟩ := ih (n0 + 1) n h
          refine ⟨by omega, h2, h3, h4, fun k hk1 hk2 => ?_⟩
          rcases Nat.lt_or_ge k (n0 + 1) with hk | hk
          · omega
          · rcases Nat.eq_or_lt_of_le hk with he | hl
            · exact he ▸ ⟨hoob, hw⟩
            · exact h5 k hl hk2
    · rw [if_neg hg] at h
      simp at h

theorem marchAux_outOfBounds_spec (px py eX eY : ℚ) :
    ∀ fuel n0 n, marchAux px py eX eY fuel n0 = some (.outOfBounds n) →
      n0 < n ∧ outOfBoundsSample px py eX eY n ∧
        ∀ k, n0 < k → k < n →
          ¬outOfBoundsSample px py eX eY k ∧ ¬wallSample px py eX eY k := by
  intro fuel
  induction fuel with
  | zero =>
    intro n0 n h
    rw [marchAux_zero] at h
    split at h <;> simp_all
  | succ fuel ih =>
    intro n0 n h
    rw [marchAux_succ] at h
    by_cases hg : distQ n0 < fDepth
    · rw [if_pos hg] at h
      by_cases hoob : outOfBoundsSample px py eX eY (n0 + 1)
      · rw [if_pos hoob] at h
        have hn : n = n0 + 1 := by simpa using h.symm
        subst hn
        exact ⟨Nat.lt_succ_self _, hoob, fun k hk1 hk2 => by omega⟩
      · rw [if_neg hoob] at h
        by_cases hw : wallSample px py eX eY (n0 + 1)
        · rw [if_pos hw] at h
          simp at h
        · rw [if_neg hw] at h
          obtain ⟨h1, h2, h3⟩ := ih (n0 + 1) n h
          refine ⟨by omega, h2, fun k hk1 hk2 => ?_⟩
          rcases Nat.lt_or_ge k (n0 + 1) with hk | hk
          · omega
          · rcases Nat.eq_or_lt_of_le hk with he | hl
            · exact he ▸ ⟨hoob, hw⟩
            · exact h3 k hl hk2
    · rw [if_neg hg] at h
      simp at h

theorem marchAux_isSome (px py eX eY : ℚ) :
    ∀ fuel n0, 160 ≤ n0 + fuel → ∃ r, marchAux px py eX eY fuel n0 = some r := by
  intro fuel
  induction fuel with
  | zero =>
    intro n0 hle
    rw [marchAux_zero]
    rw [if_neg (by rw [distQ_lt_depth_iff]; omega)]
    exact ⟨_, rfl⟩
  | succ fuel ih =>
    intro n0 hle
    rw [marchAux_succ]
    by_cases hg : distQ n0 < fDepth
    · rw [if_pos hg]
      by_cases hoob : outOfBoundsSample px py eX eY (n0 + 1)
      · rw [if_pos hoob]; exact ⟨_, rfl⟩
      · rw [if_neg hoob]
        by_cases hw : wallSample px py eX eY (n0 + 1)
        · rw [if_pos hw]; exact ⟨_, rfl⟩
        · rw [if_neg hw]; exact ih (n0 + 1) (by omega)
    · rw [if_neg hg]; exact ⟨_, rfl⟩

theorem marchAux_steps_le (px py eX eY : ℚ) :
    ∀ fuel n0 r, marchAux px py eX eY fuel n0 = some r → stepsOf r ≤ n0 + fuel := by
  intro fuel
  induction fuel with
  | zero =>
    intro n0 r h
    rw [marchAux_zero] at h
    split at h
    · simp at h
    · obtain rfl : MarchResult.maxDepth n0 = r := by simpa using h
      simp [stepsOf]
  | succ fuel ih =>
    intro n0 r h
    rw [marchAux_succ] at h
    by_cases hg : distQ n0 < fDepth
    · rw [if_pos hg] at h
      by_cases hoob : outOfBoundsSample px py eX eY (n0 + 1)
      · rw [if_pos hoob] at h
        obtain rfl : MarchResult.outOfBounds (n0 + 1) = r := by simpa using h
        simp [stepsOf]
      · rw [if_neg hoob] at h
        by_cases hw : wallSample px py eX eY (n0 + 1)
        · rw [if_pos hw] at h
          obtain rfl : MarchResult.hitWall (n0 + 1) = r := by simpa using h
          simp [stepsOf]
        · rw [if_neg hw] at h
          have := ih (n0 + 1) r h
          omega
    · rw [if_neg hg] at h
      obtain rfl : MarchResult.maxDepth n0 = r := by simpa using h
      simp [stepsOf]

/-- C1: a move whose tentative destination cell is a wall is reverted
exactly: `MovePlayer` returns the position unchanged. -/
theorem MovePlayer_wall_revert (x y sinA cosA elapsedTime : ℚ) (forward : Bool)
    (h : mapLookup (destIndex x y sinA cosA elapsedTime forward) = some '#') :
    MovePlayer x y sinA cosA elapsedTime forward = some (x, y) := by
  unfold MovePlayer
  rw [h]
  simp only [if_true, eq_self_iff_true, Option.some.injEq, Prod.mk.injEq]
  unfold destX destY
  constructor <;> ring

theorem MovePlayer_wall_revert_witness :
    MovePlayer (17 / 2) (29 / 2) 0 1 (1 / 5) true = some (17 / 2, 29 / 2) :=
  MovePlayer_wall_revert (17 / 2) (29 / 2) 0 1 (1 / 5) true (by decide)

/-- C2: when the ray march exits on a wall hit, the reported distance is at
most `fDepth`, the hit sample is an in-bounds wall cell, and every earlier
sample of the march was in bounds and not a wall (the march stops at the
first sampled wall cell). -/
theorem rayMarch_hitWall_spec (px py eX eY : ℚ) (n : ℕ)
    (h : rayMarch px py eX eY = some (MarchResult.hitWall n)) :
    reportedDist (MarchResult.hitWall n) ≤ fDepth ∧
      wallSample px py eX eY n ∧ ¬outOfBoundsSample px py eX eY n ∧
      ∀ k, 0 < k → k < n →
        ¬outOfBoundsSample px py eX eY k ∧ ¬wallSample px py eX eY k := by
  obtain ⟨h1, h2, h3, h4, h5⟩ := marchAux_hitWall_spec px py eX eY 160 0 n h
  refine ⟨?_, h3, h4, fun k hk1 hk2 => h5 k hk1 hk2⟩
  show distQ n ≤ fDepth
  unfold distQ fDepth
  rw [div_le_iff₀ (by norm_num)]
  exact_mod_cast by omega

theorem rayMarch_hitWall_spec_witness :
    reportedDist (MarchResult.hitWall 40) ≤ fDepth ∧
      wallSample 8 8 0 1 40 ∧ ¬outOfBoundsSample 8 8 0 1 40 ∧
      ∀ k, 0 < k → k < 40 → ¬outOfBoundsSample 8 8 0 1 k ∧ ¬wallSample 8 8 0 1 k :=
  rayMarch_hitWall_spec 8 8 0 1 40 (by decide)

/-- C3: when the ray march exits because a sample left the map bounds
before any in-bounds wall cell was sampled, the reported distance equals
`fDepth` exactly. -/
theorem rayMarch_outOfBounds_spec (px py eX eY : ℚ) (n : ℕ)
    (h : rayMarch px py eX eY = some (MarchResult.outOfBounds n)) :
    reportedDist (MarchResult.outOfBounds n) = fDepth ∧
      outOfBoundsSample px py eX eY n ∧
      ∀ k, 0 < k → k < n →
        ¬outOfBoundsSample px py eX eY k ∧ ¬wallSample px py eX eY k := by
  obtain ⟨h1, h2, h3⟩ := marchAux_outOfBounds_spec px py eX eY 160 0 n h
  exact ⟨rfl, h2, fun k hk1 hk2 => h3 k hk1 hk2⟩

theorem rayMarch_outOfBounds_spec_witness :
    reportedDist (MarchResult.outOfBounds 1) = fDepth ∧
      outOfBoundsSample (-5) (-5) 0 0 1 ∧
      ∀ k, 0 < k → k < 1 →
        ¬outOfBoundsSample (-5) (-5) 0 0 k ∧ ¬wallSample (-5) (-5) 0 0 k :=
  rayMarch_outOfBounds_spec (-5) (-5) 0 0 1 (by decide)

/-- C6: the ray-march loop always terminates: with 160 units of fuel (one
per `0.1` step up to `fDepth = 16`) the march reaches a genuine loop exit,
after at most 160 iterations. -/
theorem rayMarch_terminates (px py eX eY : ℚ) :
    ∃ r, rayMarch px py eX eY = some r ∧ stepsOf r ≤ 160 := by
  obtain ⟨r, hr⟩ := marchAux_isSome px py eX eY 160 0 (by omega)
  exact ⟨r, hr, by simpa using marchAux_steps_le px py eX eY 160 0 r hr⟩

/-- C8: the wall test of `MovePlayer` has no bounds check: there are player
coordinates (outside the 16x16 map) whose move index falls outside the
256-character map string, so the access is out of range. -/
theorem MovePlayer_index_out_of_range :
    ∃ x y sinA cosA elapsedTime forward,
      ¬(0 ≤ destIndex x y sinA cosA elapsedTime forward ∧
          destIndex x y sinA cosA elapsedTime forward < nMapWidth * nMapHeight) ∧
      MovePlayer x y sinA cosA elapsedTime forward = none :=
  ⟨41 / 2, 41 / 2, 0, 0, 0, true, by decide, by decide⟩

/-- C4 counterexample: at heading `3π/2` the minimap glyph computed by the
source is `'^'`, not the `'<'` the claim assigns to that heading. -/
theorem playerDirection_at_three_half_pi :
    playerDirection (3 * PI / 2) = '^' ∧ ('^' : Char) ≠ '<' := by decide

/-- C4 (amended): the glyphs at headings `0`, `π/2`, `π`, `3π/2` are
`'v'`, `'>'`, `'^'`, `'^'` — the third sector test `angle >= 3π/4` absorbs
every heading in `[3π/4, 2π)`, so `'<'` is never selected for a
nonnegative heading; sector-boundary headings `π/4` and `3π/4` fall in the
next sector. -/
theorem playerDirection_sectors :
    playerDirection 0 = 'v' ∧ playerDirection (PI / 2) = '>' ∧
    playerDirection PI = '^' ∧ playerDirection (3 * PI / 2) = '^' ∧
    playerDirection (PI / 4) = '>' ∧ playerDirection (3 * PI / 4) = '^' := by decide

/-- C5 counterexample: at distance exactly `fDepth / 3` the selected glyph
is `0x2592`, the glyph of the farther (darker) bucket, not the nearer
bucket's `0x2593`. -/
theorem nShade_at_depth_third :
    nShadeChain (fDepth / 3) = 0x2592 ∧ (0x2592 : ℕ) ≠ 0x2593 := by decide

/-- C5 (amended): the shade selection is deterministic with exactly four
wall tiers and space beyond depth; the `fDepth/4` threshold belongs to the
nearer (brighter) bucket via `<=`, while the `fDepth/3`, `fDepth/2` and
`fDepth` thresholds belong to the farther (darker) bucket via strict `<`. -/
theorem nShade_tiers (d : ℚ) :
    (nShadeChain d = 0x2588 ↔ d ≤ fDepth / 4) ∧
    (nShadeChain d = 0x2593 ↔ fDepth / 4 < d ∧ d < fDepth / 3) ∧
    (nShadeChain d = 0x2592 ↔ fDepth / 3 ≤ d ∧ d < fDepth / 2) ∧
    (nShadeChain d = 0x2591 ↔ fDepth / 2 ≤ d ∧ d < fDepth) ∧
    (nShadeChain d = 0x20 ↔ fDepth ≤ d) := by
  unfold nShadeChain fDepth
  split_ifs with h1 h2 h3 h4 <;> norm_num <;>
    refine ⟨?_, ?_, ?_, ?_, ?_⟩ <;> intros <;>
    first
      | linarith
      | (constructor <;> linarith)

theorem itrunc_mono (a b : ℚ) (h : a ≤ b) : itrunc a ≤ itrunc b := by
  unfold itrunc
  by_cases ha : 0 ≤ a
  · rw [if_pos ha, if_pos (ha.trans h)]
    exact Int.floor_le_floor h
  · rw [if_neg ha]
    by_cases hb : 0 ≤ b
    · rw [if_pos hb]
      refine le_trans (Int.ceil_le.2 ?_) (Int.floor_nonneg.2 hb)
      push_cast
      linarith [not_le.1 ha]
    · rw [if_neg hb]
      exact Int.ceil_mono h

theorem nCeiling_lt_20 (d : ℚ) (hd : 0 < d) : nCeiling d < 20 := by
  unfold nCeiling itrunc nScreenHeight
  have h40 : (0 : ℚ) < (40 : ℕ) / d := by positivity
  split_ifs with h
  · rw [Int.floor_lt]
    push_cast
    push_cast at h40
    linarith
  · refine lt_of_le_of_lt (Int.ceil_le.2 ?_) (show (0 : ℤ) < 20 by norm_num)
    push_cast
    push_cast at h40
    linarith

theorem nCeiling_antitone (d d' : ℚ) (hd' : 0 < d') (hle : d' ≤ d) :
    nCeiling d' ≤ nCeiling d := by
  unfold nCeiling
  apply itrunc_mono
  have hd : 0 < d := lt_of_lt_of_le hd' hle
  have : (nScreenHeight : ℚ) / d ≤ (nScreenHeight : ℚ) / d' := by
    apply div_le_div_of_nonneg_left (by norm_num [nScreenHeight]) hd' hle
  linarith

theorem ceilRows_eq_floorRows (d : ℚ) (hd : 0 < d) : ceilRows d = floorRows d := by
  unfold ceilRows floorRows
  have hc := nCeiling_lt_20 d hd
  apply Finset.card_bij' (fun y _ => 39 - y) (fun y _ => 39 - y) <;>
    intro a ha <;>
    simp only [Finset.mem_filter, Finset.mem_range, nFloor, nScreenHeight] at * <;>
    push_cast at * <;>
    omega

theorem wallRows_antitone (d d' : ℚ) (hd' : 0 < d') (hle : d' ≤ d) :
    wallRows d ≤ wallRows d' := by
  unfold wallRows
  apply Finset.card_le_card
  intro y hy
  have hcc := nCeiling_antitone d d' hd' hle
  simp only [Finset.mem_filter, Finset.mem_range, nFloor] at *
  omega

/-- C7 counterexample: the wall-slab height is not strictly increasing as
the distance shrinks: distances `15.8` and `15.9` give equal wall-row
counts, because `nCeiling` truncates to the same integer. -/
theorem wallRows_not_strictly_antitone :
    (79 / 5 : ℚ) < 159 / 10 ∧ wallRows (79 / 5) = wallRows (159 / 10) := by decide

/-- C7 (amended): the column geometry uses
`nCeiling = trunc(H/2 - H/distance)` and `nFloor = H - nCeiling`; the
number of ceiling rows above the wall equals the number of floor rows
below it, and a smaller distance yields a wall slab at least as tall
(equality can occur because of the integer truncation). -/
theorem wallSlab_spec (d d' : ℚ) (hd : 0 < d) (hd' : 0 < d') (hle : d' ≤ d) :
    nCeiling d = itrunc ((nScreenHeight : ℚ) / 2 - (nScreenHeight : ℚ) / d) ∧
    nFloor d = (nScreenHeight : ℤ) - nCeiling d ∧
    ceilRows d = floorRows d ∧
    wallRows d ≤ wallRows d' :=
  ⟨rfl, rfl, ceilRows_eq_floorRows d hd, wallRows_antitone d d' hd' hle⟩

theorem wallSlab_spec_witness :
    nCeiling 8 = itrunc ((nScreenHeight : ℚ) / 2 - (nScreenHeight : ℚ) / 8) ∧
    nFloor 8 = (nScreenHeight : ℤ) - nCeiling 8 ∧
    ceilRows 8 = floorRows 8 ∧
    wallRows 8 ≤ wallRows 4 :=
  wallSlab_spec 8 4 (by norm_num) (by norm_num) (by norm_num)

theorem applyWrites_eq {α : Type} (f : ℕ × ℕ → α) :
    ∀ (ws : List (ℕ × ℕ)) (s0 : ℕ × ℕ → α) (p : ℕ × ℕ),
      applyWrites f ws s0 p = if p ∈ ws then f p else s0 p := by
  intro ws
  induction ws with
  | nil => intro s0 p; simp [applyWrites]
  | cons w ws ih =>
    intro s0 p
    show applyWrites f ws (writeCell f s0 w) p = _
    rw [ih]
    by_cases hp : p ∈ ws
    · rw [if_pos hp, if_pos (List.mem_cons_of_mem w hp)]
    · rw [if_neg hp]
      unfold writeCell
      by_cases hw : p = w
      · subst hw
        rw [if_pos rfl, if_pos (List.mem_cons_self p ws)]

      · rw [if_neg hw, if_neg (by simp [hw, hp])]

theorem mem_renderTargets (x y : ℕ) :
    (x, y) ∈ renderTargets ↔ x < nScreenWidth ∧ y < nScreenHeight := by
  simp [renderTargets, List.mem_flatMap, List.mem_map, List.mem_range]

theorem nodup_renderTargets : renderTargets.Nodup := by
  unfold renderTargets
  rw [List.nodup_flatMap]
  constructor
  · intro x _
    exact (List.nodup_range _).map fun a b h => by simpa using h
  · apply List.Pairwise.imp ?_ (List.pairwise_lt_range _)
    intro a b hab p hpa hpb
    simp only [List.mem_map, List.mem_range] at hpa hpb
    obtain ⟨ya, -, rfl⟩ := hpa
    obtain ⟨yb, -, hb⟩ := hpb
    cases hb
    exact absurd rfl (Nat.ne_of_lt hab)

theorem length_filter_eq_one_of_nodup {α : Type} [DecidableEq α] :
    ∀ (l : List α), l.Nodup → ∀ a ∈ l, (l.filter fun b => b = a).length = 1 := by
  intro l
  induction l with
  | nil => simp
  | cons c l ih =>
    intro hnd a ha
    rcases List.nodup_cons.1 hnd with ⟨hc, hl⟩
    rw [List.filter_cons]
    by_cases hca : c = a
    · subst hca
      have hnil : (l.filter fun b => b = c) = [] :=
        List.filter_eq_nil_iff.2 fun b hb => by
          simp only [decide_eq_true_eq]
          rintro rfl
          exact hc hb
      simp [hnil]
    · have ha' : a ∈ l := by
        rcases List.mem_cons.1 ha with he | hm
        · exact absurd he.symm hca
        · exact hm
      simp only [hca, decide_False, if_false]
      exact ih hl a ha'

theorem count_renderTargets (x y : ℕ) (hx : x < nScreenWidth) (hy : y < nScreenHeight) :
    (renderTargets.filter fun p => p = (x, y)).length = 1 :=
  length_filter_eq_one_of_nodup renderTargets nodup_renderTargets (x, y)
    ((mem_renderTargets x y).2 ⟨hx, hy⟩)

/-- C9: every cell of the 120x40 screen buffer is overwritten on every
frame: the fill writes each in-range cell exactly once, the written value
is the total ceiling / wall / floor branch function of the column's ray
result, and the result does not depend on the buffer contents left from
the previous frame. -/
theorem renderFill_writes_each_cell_once (dist : ℕ → ℚ) (bnd : ℕ → Bool)
    (s0 s1 : ℕ × ℕ → ℕ) (x y : ℕ)
    (hx : x < nScreenWidth) (hy : y < nScreenHeight) :
    renderFill dist bnd s0 (x, y) = cellChar (dist x) (bnd x) y ∧
    renderFill dist bnd s0 (x, y) = renderFill dist bnd s1 (x, y) ∧
    (renderTargets.filter fun p => p = (x, y)).length = 1 := by
  have hm := (mem_renderTargets x y).2 ⟨hx, hy⟩
  unfold renderFill
  rw [applyWrites_eq, applyWrites_eq, if_pos hm, if_pos hm]
  exact ⟨rfl, rfl, count_renderTargets x y hx hy⟩

theorem renderFill_writes_each_cell_once_witness :
    renderFill (fun _ => 1) (fun _ => false) (fun _ => 0) (0, 0) = cellChar 1 false 0 ∧
    renderFill (fun _ => 1) (fun _ => false) (fun _ => 0) (0, 0) =
      renderFill (fun _ => 1) (fun _ => false) (fun _ => 7) (0, 0) ∧
    (renderTargets.filter fun p => p = (0, 0)).length = 1 :=
  renderFill_writes_each_cell_once (fun _ => 1) (fun _ => false) (fun _ => 0)
    (fun _ => 7) 0 0 (by decide) (by decide)

/-- C10: `RenderScene` never reads its `fElapsedTime` parameter, so two
renders from the same pose and map with different elapsed times produce
identical frames. -/
theorem RenderScene_elapsedTime_noninterference (px py pa t1 t2 : ℝ)
    (s0 : ℕ × ℕ → ℕ) :
    RenderScene px py pa t1 s0 = RenderScene px py pa t2 s0 := rfl

end ConFPS
